import Mathlib

/-!
Verification of the orchestration engine of the `ai-orchestration` repository.

This file shallowly embeds the parts of the Python source that the verified
properties depend on:

* `src/orchestration/components/director.py`
  (`DirectorAI._determine_execution_order`, `DirectorAI._create_fallback_plan`,
  the plan-validation fallback in `DirectorAI.execute_process`)
* `src/orchestration/agno_client.py` (`AgnoClient.run_query`)
* `src/orchestration/core/session.py` (`Task.update_status`)
* `src/orchestration/types.py` (`TaskModel.update_status`, `SubTask.update_status`)
* `src/orchestration/commands.py` (`CommandDispatcher.execute_command`)
* `src/orchestration/components/worker.py` (`WorkerAI.execute_task`)

Python dictionaries are modelled as association lists (the sources only build
them with key-determined values, so first-match lookup agrees with dict
semantics), Python exceptions as explicit error values threaded through
`Except`, and wall-clock timestamps as abstract `Nat` instants supplied by the
caller.  The recursive depth-first `visit` closure is embedded with an explicit
fuel argument; fuel exhaustion is an extra error value that is proved
unreachable for the fuel the top-level function supplies (the Python recursion
depth is bounded by the number of distinct node ids, which the chosen fuel
dominates).
-/

namespace Orchestration

/-- Python exception values that `_determine_execution_order` can raise.
`valueError` mirrors `raise ValueError(...)` in `director.py`; `outOfFuel` is
the artificial fuel-exhaustion marker of the embedding (proved unreachable). -/
inductive PyErr where
  | valueError : String → PyErr
  | outOfFuel : PyErr
  deriving DecidableEq, Repr

/-- The message built by
`raise ValueError(f"循環依存が検出されました: \x7bnode\x7d")` in
`director.py` line 344. -/
def cycleMsg (node : String) : String :=
  "循環依存が検出されました: " ++ node

/-- One element of the `subtasks: List[Dict[str, Any]]` argument of
`_determine_execution_order`: a planner-produced subtask dictionary.  The
resolver itself only reads the `"id"` key; the other fields are the ones the
director later reads when constructing `SubTask` objects. -/
structure SubtaskData where
  id : String
  title : String
  description : String
  requirements : List String
  deriving DecidableEq, Repr

/-- `d.get(k, [])` on a Python dict modelled as an association list
(`dict` keys are unique, so first-match lookup is dict lookup). -/
def lookupD (l : List (String × List String)) (k : String) : List String :=
  match l with
  | [] => []
  | (a, v) :: rest => if a = k then v else lookupD rest k

/-- The mutable state of the `visit` closure in `_determine_execution_order`:
the `visited` set, the `temp_mark` set and the `order` list.  The two Python
sets are modelled as duplicate-free lists (elements are only added under a
prior non-membership test). -/
structure DfsState where
  visited : List String
  temp : List String
  order : List String
  deriving DecidableEq, Repr

/-- The `for dep in ...: visit(dep)` loop shape: run `visitF` on each pending
node in turn, threading the state and propagating a raised exception
immediately. -/
def runDeps (visitF : String → DfsState → Except PyErr DfsState) :
    List String → DfsState → Except PyErr DfsState
  | [], st => .ok st
  | d :: ds, st =>
    match visitF d st with
    | .error e => .error e
    | .ok st' => runDeps visitF ds st'

/-- The recursive `visit(node)` closure of `_determine_execution_order`
(director.py lines 341-355), with graph `g` (the `dependency_graph` dict) and
explicit fuel:

```
if node in temp_mark: raise ValueError(...)
if node not in visited:
    temp_mark.add(node)
    for dep in dependency_graph.get(node, []): visit(dep)
    temp_mark.remove(node)
    visited.add(node)
    order.append(node)
```
-/
def visit (g : List (String × List String)) :
    Nat → String → DfsState → Except PyErr DfsState
  | 0, _, _ => .error .outOfFuel
  | fuel + 1, node, st =>
    if node ∈ st.temp then
      .error (.valueError (cycleMsg node))
    else if node ∈ st.visited then
      .ok st
    else
      match runDeps (fun d s => visit g fuel d s) (lookupD g node)
              { st with temp := node :: st.temp } with
      | .error e => .error e
      | .ok st2 =>
        .ok { st2 with
                temp := st2.temp.erase node,
                visited := node :: st2.visited,
                order := st2.order ++ [node] }

/-- The outer `for subtask in subtasks: if subtask_id not in visited:
visit(subtask_id)` loop (director.py lines 358-361). -/
def mainLoop (g : List (String × List String)) (fuel : Nat) :
    List SubtaskData → DfsState → Except PyErr DfsState
  | [], st => .ok st
  | s :: rest, st =>
    match (if s.id ∈ st.visited then .ok st else visit g fuel s.id st) with
    | .error e => .error e
    | .ok st' => mainLoop g fuel rest st'

/-- The `dependency_graph` dict built at director.py lines 331-334:
`dependency_graph[subtask_id] = dependencies.get(subtask_id, [])`. -/
def dependencyGraph (subtasks : List SubtaskData)
    (dependencies : List (String × List String)) :
    List (String × List String) :=
  subtasks.map (fun s => (s.id, lookupD dependencies s.id))

/-- Fuel that strictly dominates the number of node ids ever reachable by
`visit` (graph keys plus every id occurring in a dependency list). -/
def dfsFuel (g : List (String × List String)) : Nat :=
  g.length + (g.map (fun p => p.2.length)).sum + 1

/-- `DirectorAI._determine_execution_order` (director.py lines 315-371).
After the depth-first traversal the Python code rebuilds the subtask list
following `order` (first dict whose `"id"` matches, ids with no matching
subtask skipped) and returns `list(reversed(ordered_subtasks))`. -/
def determine_execution_order (subtasks : List SubtaskData)
    (dependencies : List (String × List String)) :
    Except PyErr (List SubtaskData) :=
  let g := dependencyGraph subtasks dependencies
  match mainLoop g (dfsFuel g) subtasks ⟨[], [], []⟩ with
  | .error e => .error e
  | .ok st =>
    .ok (st.order.filterMap
          (fun sid => subtasks.find? (fun s => s.id == sid))).reverse

/-! ### Graph vocabulary for the resolver proofs -/

/-- The dependency edge relation of a graph dict: `edge g a b` holds when the
entry for `a` lists `b` (i.e. subtask `a` depends on subtask `b`). -/
def edge (g : List (String × List String)) (a b : String) : Prop :=
  b ∈ lookupD g a

/-- Every node id the traversal can ever reach: the graph's keys together with
every id occurring in some dependency list. -/
def nodeUniverse (g : List (String × List String)) : List String :=
  g.map Prod.fst ++ (g.map Prod.snd).flatten

/-! ### The traversal invariant: `order` is a reverse-topological listing -/

/-- Invariant of the DFS state: `visited` and `order` list the same ids,
`order` lists the dependencies of each finished node before the node itself
(`Pairwise` of "no later element is a dependency of an earlier one"), every
finished node's dependencies are finished, no finished node depends on itself,
and the in-progress marks are disjoint from the finished set. -/
structure DfsInv (g : List (String × List String)) (st : DfsState) : Prop where
  memIff : ∀ v, v ∈ st.visited ↔ v ∈ st.order
  nodupOrder : st.order.Nodup
  closed : ∀ v ∈ st.visited, ∀ d ∈ lookupD g v, d ∈ st.visited
  pair : st.order.Pairwise (fun a b => b ∉ lookupD g a)
  noSelf : ∀ v ∈ st.visited, v ∉ lookupD g v
  disj : ∀ x ∈ st.temp, x ∉ st.visited
  nodupTemp : st.temp.Nodup

/-! ### Demo subtask dictionaries used by the concrete theorems -/

def subA : SubtaskData := ⟨"A", "task A", "write part A", []⟩

def subB : SubtaskData := ⟨"B", "task B", "write part B", []⟩

/-! ## Task / Subtask status models (`core/session.py`, `types.py`) -/

/-- `TaskStatus` (types.py lines 34-43). -/
inductive TaskStatus where
  | pending
  | planning
  | awaiting_feedback
  | executing
  | integrating
  | completed
  | failed
  | cancelled
  deriving DecidableEq, Repr

/-- `SubtaskStatus` (types.py lines 46-54). -/
inductive SubtaskStatus where
  | pending
  | blocked
  | in_progress
  | reviewing
  | revising
  | completed
  | failed
  deriving DecidableEq, Repr

/-- The `Task` dataclass of core/session.py (lines 71-88).  `result` is an
opaque optional payload; timestamps are abstract instants (`Nat`), with the
current time passed explicitly where the Python calls `datetime.now()`. -/
structure Task where
  id : String
  title : String
  description : String
  status : TaskStatus
  result : Option String
  created_at : Nat
  updated_at : Nat
  completed_at : Option Nat
  deriving DecidableEq, Repr

/-- `Task.update_status` (core/session.py lines 83-88):

```
self.status = status
self.updated_at = datetime.now()
if status == TaskStatus.COMPLETED:
    self.completed_at = datetime.now()
```
-/
def Task.update_status (t : Task) (status : TaskStatus) (now : Nat) : Task :=
  { t with
      status := status
      updated_at := now
      completed_at :=
        if status = TaskStatus.completed then some now else t.completed_at }

/-- `TaskModel` (types.py lines 200-225); same fields as `Task` plus
`requirements`. -/
structure TaskModel where
  id : String
  title : String
  description : String
  status : TaskStatus
  result : Option String
  created_at : Nat
  updated_at : Nat
  completed_at : Option Nat
  requirements : List String
  deriving DecidableEq, Repr

/-- `TaskModel.update_status` (types.py lines 220-225): identical body to
`Task.update_status`. -/
def TaskModel.update_status (t : TaskModel) (status : TaskStatus) (now : Nat) :
    TaskModel :=
  { t with
      status := status
      updated_at := now
      completed_at :=
        if status = TaskStatus.completed then some now else t.completed_at }

/-- `SubTask` (types.py lines 258-274). -/
structure SubTask where
  id : String
  title : String
  description : String
  status : SubtaskStatus
  result : Option String
  requirements : Option (List String)
  constraints : Option (List String)
  created_at : Nat
  updated_at : Nat
  completed_at : Option Nat
  deriving DecidableEq, Repr

/-- `SubTask.update_status` (types.py lines 271-274):

```
self.status = status
self.updated_at = datetime.now()
```
-/
def SubTask.update_status (t : SubTask) (status : SubtaskStatus) (now : Nat) :
    SubTask :=
  { t with status := status, updated_at := now }

/-- A sequence of `update_status` calls on a `Task`, each with its instant. -/
def Task.apply_updates (t : Task) (updates : List (TaskStatus × Nat)) : Task :=
  updates.foldl (fun t p => t.update_status p.1 p.2) t

/-- A sequence of `update_status` calls on a `TaskModel`. -/
def TaskModel.apply_updates (t : TaskModel) (updates : List (TaskStatus × Nat)) :
    TaskModel :=
  updates.foldl (fun t p => t.update_status p.1 p.2) t

/-- A completed `Task` as it exists after a successful run. -/
def demoTaskDone : Task :=
  ⟨"t1", "Task t1", "main task", TaskStatus.completed, some "out", 0, 5, some 5⟩

/-- A completed `SubTask`. -/
def demoSubDone : SubTask :=
  ⟨"s1", "Sub s1", "subtask", SubtaskStatus.completed, some "out", none, none,
    0, 5, some 5⟩

/-- A completed `TaskModel`. -/
def demoModelDone : TaskModel :=
  ⟨"t1", "Task t1", "main task", TaskStatus.completed, some "out", 0, 5, some 5, []⟩

/-- A freshly constructed `Task` (dataclass defaults: status PENDING,
`completed_at = None`). -/
def freshTask (now : Nat) : Task :=
  ⟨"t1", "Task t1", "main task", TaskStatus.pending, none, now, now, none⟩

/-- A freshly constructed `TaskModel` (defaults: status PENDING,
`completed_at = None`, empty requirements). -/
def demoFreshModel : TaskModel :=
  ⟨"t1", "Task t1", "main task", TaskStatus.pending, none, 0, 0, none, []⟩

/-! ## `AgnoClient.run_query` (agno_client.py lines 71-115) -/

/-- Does the character list starting here begin with `pat`? -/
def startsWithL : List Char → List Char → Bool
  | [], _ => true
  | _ :: _, [] => false
  | c :: cs, d :: ds => c == d && startsWithL cs ds

/-- Does `pat` occur as a contiguous run inside the character list?
(Python's `pat in s`.) -/
def containsL (pat : List Char) : List Char → Bool
  | [] => startsWithL pat []
  | d :: ds => startsWithL pat (d :: ds) || containsL pat ds

/-- `pat in s` on strings. -/
def strContainsSub (s pat : String) : Bool :=
  containsL pat.toList s.toList

/-- `str(e).lower()` (ASCII-relevant lowering of the error text). -/
def lowerStr (s : String) : String :=
  ⟨s.data.map Char.toLower⟩

/-- The transient-error test of agno_client.py lines 101-103:
`"loading model" in str(e).lower() or "timed out" in str(e).lower()`. -/
def isTransientErr (e : String) : Bool :=
  strContainsSub (lowerStr e) "loading model" ||
    strContainsSub (lowerStr e) "timed out"

/-- The message returned once the final attempt has failed
(agno_client.py line 113). -/
def errorReturnMsg (e : String) : String :=
  "エラーが発生しました: " ++ e ++
    "。Ollamaサーバーが起動しているか、選択したモデルが正しくインストールされているか確認してください。"

/-- The message of the line after the loop (agno_client.py line 115;
unreachable for `max_retries = 3`). -/
def retriesExhaustedMsg : String :=
  "複数回の試行後もエラーが発生しました。しばらくしてから再度お試しください。"

/-- `max_retries = 3` (agno_client.py line 83). -/
def maxRetries : Nat := 3

/-- What one run of `run_query` produced: the returned string, how many
backend attempts were made, and the `asyncio.sleep` delays performed (in
seconds, in order). -/
structure RunResult where
  result : String
  attemptsMade : Nat
  delays : List Nat
  deriving DecidableEq, Repr

/-- The `for attempt in range(max_retries)` loop of `run_query`
(agno_client.py lines 86-113), with the backend abstracted as a map from the
attempt index to its outcome (the response content, or the exception text of
whatever the try-block raised).  `remaining` counts the loop iterations left
(`max_retries - attempt`); `delay` is `retry_delay`:

```
try:
    ... response = await self.agent.arun(query, ...)
    return response.content ...
except Exception as e:
    if (transient) and attempt < max_retries - 1:
        await asyncio.sleep(retry_delay); retry_delay *= 2; continue
    if attempt >= max_retries - 1:
        return "エラーが発生しました: ..."
    # (fall-through: next loop iteration, no sleep)
```
-/
def run_query_loop (attempts : Nat → Except String String) :
    Nat → Nat → Nat → List Nat → RunResult
  | 0, attempt, _, ds => ⟨retriesExhaustedMsg, attempt, ds⟩
  | remaining + 1, attempt, delay, ds =>
    match attempts attempt with
    | .ok content => ⟨content, attempt + 1, ds⟩
    | .error e =>
      if isTransientErr e ∧ attempt < maxRetries - 1 then
        run_query_loop attempts remaining (attempt + 1) (delay * 2) (ds ++ [delay])
      else if attempt ≥ maxRetries - 1 then
        ⟨errorReturnMsg e, attempt + 1, ds⟩
      else
        run_query_loop attempts remaining (attempt + 1) delay ds

/-- `AgnoClient.run_query`: the loop entered with `attempt = 0` and
`retry_delay = 2`. -/
def run_query (attempts : Nat → Except String String) : RunResult :=
  run_query_loop attempts maxRetries 0 2 []

/-- A backend whose first attempt raises a non-transient (validation-style)
error and whose second attempt succeeds. -/
def nonTransientThenOk : Nat → Except String String :=
  fun i => if i = 0 then .error "malformed output" else .ok "recovered"

/-- A backend that always raises the same non-transient error. -/
def alwaysInvalid : Nat → Except String String :=
  fun _ => .error "invalid request"

/-- A backend that always times out. -/
def alwaysTimeout : Nat → Except String String :=
  fun _ => .error "Request timed out"

/-! ## `CommandDispatcher.execute_command` (commands.py lines 215-263) -/

/-- A Python exception as the dispatcher distinguishes them: `TypeError`
(bad constructor arguments) versus any other `Exception`. -/
inductive PyExc where
  | typeError : String → PyExc
  | exc : String → PyExc
  deriving DecidableEq, Repr

/-- The `dict[str, Any]` a command returns: the `"status"` entry, the
`"error"` entry when present, and an opaque `"result"` payload. -/
structure CmdResult where
  status : String
  error : Option String
  payload : Option String
  deriving DecidableEq, Repr

/-- A constructed command instance: running `execute()` either raises or
returns a result dict.  Handlers are abstracted by their outcome, which is
exactly what the claim quantifies over. -/
structure CommandInstance where
  execute : Except PyExc CmdResult

/-- A registry entry: calling the command class's constructor either raises
or yields an instance. -/
structure CommandSpec where
  construct : Except PyExc CommandInstance

/-- `self.command_map.get`-style lookup (`command_type not in self.command_map`
then `self.command_map[command_type]`). -/
def lookupCmd (l : List (String × CommandSpec)) (k : String) :
    Option CommandSpec :=
  match l with
  | [] => none
  | (a, v) :: rest => if a = k then some v else lookupCmd rest k

/-- `f"不明なコマンドタイプが指定されました: \x7bcommand_type\x7d"`
(commands.py line 231). -/
def unknownCommandMsg (ct : String) : String :=
  "不明なコマンドタイプが指定されました: " ++ ct

/-- The `except TypeError` message (commands.py line 254). -/
def initErrorMsg (ct msg : String) : String :=
  "コマンド '" ++ ct ++ "' の初期化引数が不正です: " ++ msg

/-- The `except Exception` message (commands.py line 259). -/
def execErrorMsg (ct msg : String) : String :=
  "コマンド '" ++ ct ++ "' の実行中に予期せぬエラーが発生しました: " ++ msg

/-- `CommandDispatcher.execute_command` (commands.py lines 215-263): unknown
command names yield an error dict; the `try` block instantiates and runs the
command, `except TypeError` and `except Exception` convert any raise (from
construction or execution) into a failure dict.  The unknown-command branch
takes the `return` (the `raise ValueError` alternative is commented out in
the source). -/
def execute_command (commandMap : List (String × CommandSpec)) (ct : String) :
    CmdResult :=
  match lookupCmd commandMap ct with
  | none => ⟨"failure", some (unknownCommandMsg ct), none⟩
  | some spec =>
    match spec.construct with
    | .error (.typeError m) => ⟨"failure", some (initErrorMsg ct m), none⟩
    | .error (.exc m) => ⟨"failure", some (execErrorMsg ct m), none⟩
    | .ok inst =>
      match inst.execute with
      | .error (.typeError m) => ⟨"failure", some (initErrorMsg ct m), none⟩
      | .error (.exc m) => ⟨"failure", some (execErrorMsg ct m), none⟩
      | .ok res => res

/-- A handler whose constructor raises. -/
def brokenConstructSpec : CommandSpec :=
  ⟨.error (.exc "planner missing")⟩

/-- A handler that constructs but whose `execute()` raises. -/
def brokenExecuteSpec : CommandSpec :=
  ⟨.ok ⟨.error (.exc "boom")⟩⟩

/-- A handler that returns a success dict. -/
def okSpec : CommandSpec :=
  ⟨.ok ⟨.ok ⟨"success", none, some "plan"⟩⟩⟩

/-! ## `DirectorAI._create_fallback_plan` (director.py lines 415-446) and the
validation fallback in `execute_process` (lines 146-153) -/

/-- The plan dict produced by the planner or the fallback
(`task_id`, `subtasks`, `dependencies`, `strategy`, `estimated_steps`). -/
structure Plan where
  task_id : String
  subtasks : List SubtaskData
  dependencies : List (String × List String)
  strategy : String
  estimated_steps : Nat
  deriving DecidableEq, Repr

/-- `DirectorAI._create_fallback_plan` for a `TaskModel` (which always has
`id`, `title`, `description` and a list-valued `requirements`, so the
`hasattr` branches take their attribute arms; an empty `requirements` list is
falsy in Python and yields `[]`, which coincides with itself). -/
def create_fallback_plan (task : TaskModel) : Plan :=
  { task_id := task.id
    subtasks := [⟨task.id ++ "-sub1", task.title ++ " (単一ステップ)",
      task.description, task.requirements⟩]
    dependencies := []
    strategy := "単一ステップ実行"
    estimated_steps := 1 }

/-- The plan-selection step of `DirectorAI.execute_process` (director.py
lines 146-153): keep the planner's plan when `validate_plan` succeeded, else
substitute the fallback plan. -/
def choose_plan (task : TaskModel) (planned : Plan) (validationOk : Bool) :
    Plan :=
  if validationOk then planned else create_fallback_plan task

/-! ## `WorkerAI.execute_task` (worker.py lines 121-226) -/

/-- `TaskExecutionResult` (types.py lines 248-255) with the result payload of
worker.py made explicit: on success `result` holds `content`,
`requirements_met` and `execution_time_ms`; on failure it holds `error` and
`execution_time_ms`. -/
structure TaskExecutionResult where
  task_id : String
  status : TaskStatus
  content : Option String
  requirements_met : List String
  errorEntry : Option String
  execution_time_ms : Nat
  deriving DecidableEq, Repr

/-- `f"タスク実行中にエラーが発生しました: \x7bstr(e)\x7d"`
(worker.py line 209). -/
def taskErrMsg (e : String) : String :=
  "タスク実行中にエラーが発生しました: " ++ e

/-- Keyword lists of `WorkerAI._determine_task_type`
(worker.py lines 360-374). -/
def creativeKeywords : List String :=
  ["創作", "小説", "物語", "キャラクター", "ストーリー", "シナリオ",
    "creative", "story", "character"]

def codingKeywords : List String :=
  ["コード", "プログラム", "実装", "code", "programming", "implementation"]

def analysisKeywords : List String :=
  ["分析", "調査", "研究", "analysis", "research"]

/-- `WorkerAI._determine_task_type` (worker.py lines 343-377) for a `SubTask`
(which has no `task_type` attribute, so the `hasattr` branch is skipped):
keyword scan over the lowered title and description, else `"generic"`.
Total — it cannot raise, which is why the code before the `try` block of
`execute_task` cannot fail. -/
def determine_task_type (task : SubTask) : String :=
  let title := lowerStr task.title
  let description := lowerStr task.description
  if creativeKeywords.any
      (fun k => strContainsSub title k || strContainsSub description k) then
    "creative"
  else if codingKeywords.any
      (fun k => strContainsSub title k || strContainsSub description k) then
    "coding"
  else if analysisKeywords.any
      (fun k => strContainsSub title k || strContainsSub description k) then
    "analysis"
  else
    "generic"

/-- `WorkerAI.execute_task` (worker.py lines 121-226).  The fallible steps
inside the `try` block are abstracted by their outcomes: gathering context
data, gathering task history, and the LLM generation
(`generate_with_template`); `_validate_requirements` catches its own
exceptions and returns a list, so it is passed as a value.  The function
returns the final `task.status` string the Python code assigned
(`"completed"` / `"failed"`) together with the `TaskExecutionResult`; any
raise inside the `try` is converted into a FAILED result whose payload
carries the error. -/
def execute_task (task : SubTask)
    (gatherCtx : Except String Unit) (gatherHist : Except String Unit)
    (generate : Except String String) (requirementsMet : List String)
    (startTime endTime : Nat) : String × TaskExecutionResult :=
  match gatherCtx with
  | .error e =>
    ("failed", ⟨task.id, TaskStatus.failed, none, [], some (taskErrMsg e),
      endTime - startTime⟩)
  | .ok _ =>
    match gatherHist with
    | .error e =>
      ("failed", ⟨task.id, TaskStatus.failed, none, [], some (taskErrMsg e),
        endTime - startTime⟩)
    | .ok _ =>
      match generate with
      | .error e =>
        ("failed", ⟨task.id, TaskStatus.failed, none, [], some (taskErrMsg e),
          endTime - startTime⟩)
      | .ok content =>
        ("completed", ⟨task.id, TaskStatus.completed, some content,
          requirementsMet, none, endTime - startTime⟩)

/-- A demo subtask for the worker. -/
def demoWorkSub : SubTask :=
  ⟨"s1", "Write a story", "write a short story", SubtaskStatus.pending, none,
    some ["three paragraphs"], none, 0, 0, none⟩

/-! ## Theorems -/

theorem mem_universe_of_mem_lookupD {g : List (String × List String)}
    {k b : String} (h : b ∈ lookupD g k) : b ∈ nodeUniverse g := by
  induction g with
  | nil => simp [lookupD] at h
  | cons p rest ih =>
    obtain ⟨a, v⟩ := p
    simp only [lookupD] at h
    by_cases hak : a = k
    · rw [if_pos hak] at h
      exact List.mem_append_right _
        (by simp only [List.map_cons, List.flatten_cons]
            exact List.mem_append_left _ h)
    · rw [if_neg hak] at h
      have := ih h
      simp only [nodeUniverse, List.map_cons, List.flatten_cons, List.mem_append,
        List.mem_cons] at this ⊢
      tauto

theorem key_mem_of_edge {g : List (String × List String)} {a b : String}
    (h : edge g a b) : a ∈ g.map Prod.fst := by
  induction g with
  | nil => simp [edge, lookupD] at h
  | cons p rest ih =>
    obtain ⟨x, v⟩ := p
    simp only [edge, lookupD] at h
    by_cases hxa : x = a
    · simp [hxa]
    · rw [if_neg hxa] at h
      simpa using Or.inr (ih h)

theorem universe_length {g : List (String × List String)} :
    (nodeUniverse g).length = g.length + (g.map (fun p => p.2.length)).sum := by
  simp only [nodeUniverse, List.length_append, List.length_map,
    List.length_flatten, List.map_map]
  rfl

/-! ### Unconditional state facts about `visit` -/

theorem runDeps_ok_temp {visitF : String → DfsState → Except PyErr DfsState}
    (hF : ∀ d s s', visitF d s = .ok s' → s'.temp = s.temp) :
    ∀ ds st st', runDeps visitF ds st = .ok st' → st'.temp = st.temp := by
  intro ds
  induction ds with
  | nil => intro st st' h; cases h; rfl
  | cons d ds ih =>
    intro st st' h
    simp only [runDeps] at h
    cases hv : visitF d st with
    | error e => rw [hv] at h; cases h
    | ok s1 => rw [hv] at h; rw [ih s1 st' h, hF d st s1 hv]

theorem visit_ok_temp {g : List (String × List String)} :
    ∀ fuel node st st', visit g fuel node st = .ok st' → st'.temp = st.temp := by
  intro fuel
  induction fuel with
  | zero => intro node st st' h; simp [visit] at h
  | succ fuel ih =>
    intro node st st' h
    simp only [visit] at h
    by_cases h1 : node ∈ st.temp
    · rw [if_pos h1] at h; cases h
    · rw [if_neg h1] at h
      by_cases h2 : node ∈ st.visited
      · rw [if_pos h2] at h; cases h; rfl
      · rw [if_neg h2] at h
        cases hr : runDeps (fun d s => visit g fuel d s) (lookupD g node)
            { st with temp := node :: st.temp } with
        | error e => rw [hr] at h; cases h
        | ok st2 =>
          rw [hr] at h
          cases h
          have ht2 : st2.temp = node :: st.temp :=
            runDeps_ok_temp (fun d s s' hds => ih d s s' hds) _ _ _ hr
          simp [ht2]

/-! ### Fuel adequacy: the artificial `outOfFuel` error never occurs -/

theorem runDeps_ne_fuelErr {visitF : String → DfsState → Except PyErr DfsState}
    (us t0 : List String)
    (hTemp : ∀ d s s', visitF d s = .ok s' → s'.temp = s.temp)
    (hF : ∀ d s, d ∈ us → s.temp = t0 → visitF d s ≠ .error .outOfFuel) :
    ∀ ds st, (∀ d ∈ ds, d ∈ us) → st.temp = t0 →
      runDeps visitF ds st ≠ .error .outOfFuel := by
  intro ds
  induction ds with
  | nil => intro st _ _ h; cases h
  | cons d ds ih =>
    intro st hds ht h
    simp only [runDeps] at h
    cases hv : visitF d st with
    | error e =>
      rw [hv] at h
      cases h
      exact hF d st (hds d (List.mem_cons_self d ds)) ht hv
    | ok s1 =>
      rw [hv] at h
      have hs1 : s1.temp = t0 := (hTemp d st s1 hv).trans ht
      exact ih s1 (fun x hx => hds x (List.mem_cons_of_mem d hx)) hs1 h

theorem visit_ne_fuelErr {g : List (String × List String)} :
    ∀ fuel node st, node ∈ nodeUniverse g → st.temp ⊆ nodeUniverse g →
      st.temp.Nodup → (nodeUniverse g).length < fuel + st.temp.length →
      visit g fuel node st ≠ .error .outOfFuel := by
  intro fuel
  induction fuel with
  | zero =>
    intro node st _ hsub hnd hlen _
    have := (hnd.subperm hsub).length_le
    omega
  | succ fuel ih =>
    intro node st hnode hsub hnd hlen h
    simp only [visit] at h
    by_cases h1 : node ∈ st.temp
    · rw [if_pos h1] at h; cases h
    · rw [if_neg h1] at h
      by_cases h2 : node ∈ st.visited
      · rw [if_pos h2] at h; cases h
      · rw [if_neg h2] at h
        cases hr : runDeps (fun d s => visit g fuel d s) (lookupD g node)
            { st with temp := node :: st.temp } with
        | error e =>
          rw [hr] at h
          cases h
          refine runDeps_ne_fuelErr (lookupD g node) (node :: st.temp)
            (fun d s s' hds => visit_ok_temp fuel d s s' hds)
            (fun d s hd hst => ?_) (lookupD g node) _ (fun d hd => hd) rfl hr
          refine ih d s (mem_universe_of_mem_lookupD hd) ?_ ?_ ?_
          · rw [hst]; exact List.cons_subset.mpr ⟨hnode, hsub⟩
          · rw [hst]; exact List.nodup_cons.mpr ⟨h1, hnd⟩
          · rw [hst]; simp only [List.length_cons]; omega
        | ok st2 => rw [hr] at h; cases h

/-! ### Any raised error is the cycle `ValueError`, naming a node on a cycle -/

theorem runDeps_error_spec {visitF : String → DfsState → Except PyErr DfsState}
    {g : List (String × List String)} (us t0 : List String)
    (hTemp : ∀ d s s', visitF d s = .ok s' → s'.temp = s.temp)
    (hF : ∀ d s e, d ∈ us → s.temp = t0 → visitF d s = .error e →
      e = .outOfFuel ∨
        ∃ m, e = .valueError (cycleMsg m) ∧ Relation.TransGen (edge g) m m) :
    ∀ ds st e, (∀ d ∈ ds, d ∈ us) → st.temp = t0 →
      runDeps visitF ds st = .error e →
      e = .outOfFuel ∨
        ∃ m, e = .valueError (cycleMsg m) ∧ Relation.TransGen (edge g) m m := by
  intro ds
  induction ds with
  | nil => intro st e _ _ h; cases h
  | cons d ds ih =>
    intro st e hds ht h
    simp only [runDeps] at h
    cases hv : visitF d st with
    | error e' =>
      rw [hv] at h
      cases h
      exact hF d st e (hds d (List.mem_cons_self d ds)) ht hv
    | ok s1 =>
      rw [hv] at h
      have hs1 : s1.temp = t0 := (hTemp d st s1 hv).trans ht
      exact ih s1 e (fun x hx => hds x (List.mem_cons_of_mem d hx)) hs1 h

theorem visit_error_spec {g : List (String × List String)} :
    ∀ fuel node st e,
      (∀ t ∈ st.temp, Relation.TransGen (edge g) t node) →
      visit g fuel node st = .error e →
      e = .outOfFuel ∨
        ∃ m, e = .valueError (cycleMsg m) ∧ Relation.TransGen (edge g) m m := by
  intro fuel
  induction fuel with
  | zero =>
    intro node st e _ h
    simp only [visit] at h
    cases h
    exact Or.inl rfl
  | succ fuel ih =>
    intro node st e hpre h
    simp only [visit] at h
    by_cases h1 : node ∈ st.temp
    · rw [if_pos h1] at h
      cases h
      exact Or.inr ⟨node, rfl, hpre node h1⟩
    · rw [if_neg h1] at h
      by_cases h2 : node ∈ st.visited
      · rw [if_pos h2] at h; cases h
      · rw [if_neg h2] at h
        cases hr : runDeps (fun d s => visit g fuel d s) (lookupD g node)
            { st with temp := node :: st.temp } with
        | error e' =>
          rw [hr] at h
          cases h
          refine runDeps_error_spec (lookupD g node) (node :: st.temp)
            (fun d s s' hds => visit_ok_temp fuel d s s' hds)
            (fun d s e' hd hst hde => ih d s e' (fun t htmem => ?_) hde)
            (lookupD g node) _ e (fun d hd => hd) rfl hr
          rw [hst] at htmem
          rcases List.mem_cons.mp htmem with h | h
          · subst h
            exact Relation.TransGen.single hd
          · exact Relation.TransGen.tail (hpre t h) hd
        | ok st2 => rw [hr] at h; cases h

theorem dfsInv_init (g : List (String × List String)) :
    DfsInv g ⟨[], [], []⟩ := by
  refine ⟨?_, ?_, ?_, ?_, ?_, ?_, ?_⟩ <;> simp

theorem runDeps_ok_spec {visitF : String → DfsState → Except PyErr DfsState}
    {g : List (String × List String)}
    (hF : ∀ d s s', DfsInv g s → visitF d s = .ok s' →
      DfsInv g s' ∧ s'.temp = s.temp ∧ s.visited ⊆ s'.visited ∧ d ∈ s'.visited) :
    ∀ ds st st', DfsInv g st → runDeps visitF ds st = .ok st' →
      DfsInv g st' ∧ st'.temp = st.temp ∧ st.visited ⊆ st'.visited ∧
        ∀ d ∈ ds, d ∈ st'.visited := by
  intro ds
  induction ds with
  | nil =>
    intro st st' hinv h
    cases h
    exact ⟨hinv, rfl, fun x hx => hx, by simp⟩
  | cons d ds ih =>
    intro st st' hinv h
    simp only [runDeps] at h
    cases hv : visitF d st with
    | error e => rw [hv] at h; cases h
    | ok s1 =>
      rw [hv] at h
      obtain ⟨hinv1, ht1, hsub1, hd1⟩ := hF d st s1 hinv hv
      obtain ⟨hinv', ht', hsub', hds'⟩ := ih s1 st' hinv1 h
      refine ⟨hinv', ht'.trans ht1, fun x hx => hsub' (hsub1 hx), ?_⟩
      intro x hx
      rcases List.mem_cons.mp hx with rfl | hx
      · exact hsub' hd1
      · exact hds' x hx

theorem visit_ok_spec {g : List (String × List String)} :
    ∀ fuel node st st', DfsInv g st → visit g fuel node st = .ok st' →
      DfsInv g st' ∧ st'.temp = st.temp ∧ st.visited ⊆ st'.visited ∧
        node ∈ st'.visited := by
  intro fuel
  induction fuel with
  | zero => intro node st st' _ h; simp [visit] at h
  | succ fuel ih =>
    intro node st st' hinv h
    simp only [visit] at h
    by_cases h1 : node ∈ st.temp
    · rw [if_pos h1] at h; cases h
    · rw [if_neg h1] at h
      by_cases h2 : node ∈ st.visited
      · rw [if_pos h2] at h
        cases h
        exact ⟨hinv, rfl, fun x hx => hx, h2⟩
      · rw [if_neg h2] at h
        cases hr : runDeps (fun d s => visit g fuel d s) (lookupD g node)
            { st with temp := node :: st.temp } with
        | error e => rw [hr] at h; cases h
        | ok st2 =>
          rw [hr] at h
          cases h
          have hinv0 : DfsInv g { st with temp := node :: st.temp } := by
            refine ⟨hinv.memIff, hinv.nodupOrder, hinv.closed, hinv.pair,
              hinv.noSelf, ?_, ?_⟩
            · intro x hx
              rcases List.mem_cons.mp hx with rfl | hx
              · exact h2
              · exact hinv.disj x hx
            · exact List.nodup_cons.mpr ⟨h1, hinv.nodupTemp⟩
          obtain ⟨hinv2, ht2, hsub2, hdeps2⟩ :=
            runDeps_ok_spec (fun d s s' hs hds => ih d s s' hs hds)
              (lookupD g node) _ st2 hinv0 hr
          have hnodetemp2 : node ∈ st2.temp := by
            rw [ht2]; exact List.mem_cons_self _ _
          have hnodevis2 : node ∉ st2.visited := hinv2.disj node hnodetemp2
          have hnodeord2 : node ∉ st2.order :=
            fun hmem => hnodevis2 ((hinv2.memIff node).mpr hmem)
          have hdepsv : ∀ d ∈ lookupD g node, d ∈ st2.visited := hdeps2
          refine ⟨⟨?_, ?_, ?_, ?_, ?_, ?_, ?_⟩, ?_, ?_, ?_⟩
          · intro v
            simp only [List.mem_cons, List.mem_append, List.mem_singleton,
              hinv2.memIff v]
            tauto
          · exact List.nodup_append.mpr ⟨hinv2.nodupOrder,
              List.nodup_singleton _,
              fun a ha hb => hnodeord2 (List.mem_singleton.mp hb ▸ ha)⟩
          · intro v hv d hd
            rcases List.mem_cons.mp hv with rfl | hv
            · exact List.mem_cons_of_mem _ (hdepsv d hd)
            · exact List.mem_cons_of_mem _ (hinv2.closed v hv d hd)
          · refine List.pairwise_append.mpr ⟨hinv2.pair, by simp, ?_⟩
            intro a ha b hb
            rcases List.mem_singleton.mp hb with rfl
            intro hmem
            exact hnodevis2
              (hinv2.closed a ((hinv2.memIff a).mpr ha) b hmem)
          · intro v hv
            rcases List.mem_cons.mp hv with rfl | hv
            · exact fun hmem => hnodevis2 (hdepsv v hmem)
            · exact hinv2.noSelf v hv
          · intro x hx
            simp only [ht2, List.erase_cons_head] at hx
            intro hmem
            rcases List.mem_cons.mp hmem with rfl | hmem
            · exact h1 hx
            · exact hinv2.disj x (by rw [ht2]; exact List.mem_cons_of_mem _ hx)
                hmem
          · exact hinv2.nodupTemp.erase node
          · simp [ht2, List.erase_cons_head]
          · exact fun x hx => List.mem_cons_of_mem _ (hsub2 hx)
          · exact List.mem_cons_self _ _

/-! ### The outer loop -/

theorem mainLoop_ok_spec {g : List (String × List String)} {fuel : Nat} :
    ∀ l st st', DfsInv g st → mainLoop g fuel l st = .ok st' →
      DfsInv g st' ∧ st'.temp = st.temp ∧ st.visited ⊆ st'.visited ∧
        ∀ s ∈ l, s.id ∈ st'.visited := by
  intro l
  induction l with
  | nil =>
    intro st st' hinv h
    cases h
    exact ⟨hinv, rfl, fun x hx => hx, by simp⟩
  | cons s rest ih =>
    intro st st' hinv h
    simp only [mainLoop] at h
    by_cases hs : s.id ∈ st.visited
    · rw [if_pos hs] at h
      obtain ⟨hinv', ht', hsub', hrest'⟩ := ih st st' hinv h
      refine ⟨hinv', ht', hsub', ?_⟩
      intro x hx
      rcases List.mem_cons.mp hx with rfl | hx
      · exact hsub' hs
      · exact hrest' x hx
    · rw [if_neg hs] at h
      cases hv : visit g fuel s.id st with
      | error e => rw [hv] at h; cases h
      | ok s1 =>
        rw [hv] at h
        obtain ⟨hinv1, ht1, hsub1, hid1⟩ := visit_ok_spec fuel s.id st s1 hinv hv
        obtain ⟨hinv', ht', hsub', hrest'⟩ := ih s1 st' hinv1 h
        refine ⟨hinv', ht'.trans ht1, fun x hx => hsub' (hsub1 hx), ?_⟩
        intro x hx
        rcases List.mem_cons.mp hx with rfl | hx
        · exact hsub' hid1
        · exact hrest' x hx

theorem mainLoop_error_spec {g : List (String × List String)} {fuel : Nat} :
    ∀ l st e, st.temp = [] → mainLoop g fuel l st = .error e →
      e = .outOfFuel ∨
        ∃ m, e = .valueError (cycleMsg m) ∧ Relation.TransGen (edge g) m m := by
  intro l
  induction l with
  | nil => intro st e _ h; cases h
  | cons s rest ih =>
    intro st e ht h
    simp only [mainLoop] at h
    by_cases hs : s.id ∈ st.visited
    · rw [if_pos hs] at h
      exact ih st e ht h
    · rw [if_neg hs] at h
      cases hv : visit g fuel s.id st with
      | error e' =>
        rw [hv] at h
        cases h
        exact visit_error_spec fuel s.id st e (by rw [ht]; simp) hv
      | ok s1 =>
        rw [hv] at h
        exact ih s1 e ((visit_ok_temp fuel s.id st s1 hv).trans ht) h

theorem mainLoop_ne_fuelErr {g : List (String × List String)} {fuel : Nat} :
    ∀ l st, st.temp = [] → (∀ s ∈ l, s.id ∈ nodeUniverse g) →
      (nodeUniverse g).length < fuel →
      mainLoop g fuel l st ≠ .error .outOfFuel := by
  intro l
  induction l with
  | nil => intro st _ _ _ h; cases h
  | cons s rest ih =>
    intro st ht hl hfuel h
    simp only [mainLoop] at h
    by_cases hs : s.id ∈ st.visited
    · rw [if_pos hs] at h
      exact ih st ht (fun x hx => hl x (List.mem_cons_of_mem s hx)) hfuel h
    · rw [if_neg hs] at h
      cases hv : visit g fuel s.id st with
      | error e' =>
        rw [hv] at h
        cases h
        exact visit_ne_fuelErr fuel s.id st (hl s (List.mem_cons_self s rest))
          (by rw [ht]; simp) (by rw [ht]; simp)
          (by rw [ht]; simpa using hfuel) hv
      | ok s1 =>
        rw [hv] at h
        exact ih s1 ((visit_ok_temp fuel s.id st s1 hv).trans ht)
          (fun x hx => hl x (List.mem_cons_of_mem s hx)) hfuel h

/-! ### From the invariant to acyclicity of the visited graph -/

theorem pos_lt_of_edge {g : List (String × List String)} {st : DfsState}
    (inv : DfsInv g st) {x y : String} (hx : x ∈ st.order)
    (hxy : edge g x y) :
    y ∈ st.order ∧ st.order.indexOf y < st.order.indexOf x := by
  have hxvis : x ∈ st.visited := (inv.memIff x).mpr hx
  have hyvis : y ∈ st.visited := inv.closed x hxvis y hxy
  have hy : y ∈ st.order := (inv.memIff y).mp hyvis
  have hyx : y ≠ x := fun hyx => inv.noSelf x hxvis (hyx ▸ hxy)
  refine ⟨hy, ?_⟩
  have hi : st.order.indexOf y < st.order.length := List.indexOf_lt_length.mpr hy
  have hj : st.order.indexOf x < st.order.length := List.indexOf_lt_length.mpr hx
  have hgy : st.order.get ⟨st.order.indexOf y, hi⟩ = y := List.indexOf_get hi
  have hgx : st.order.get ⟨st.order.indexOf x, hj⟩ = x := List.indexOf_get hj
  rcases lt_trichotomy (st.order.indexOf y) (st.order.indexOf x) with h | h | h
  · exact h
  · have heq : y = x := by
      rw [← hgy, ← hgx]
      exact congrArg st.order.get (Fin.ext h)
    exact absurd heq hyx
  · have := List.pairwise_iff_get.mp inv.pair ⟨st.order.indexOf x, hj⟩
      ⟨st.order.indexOf y, hi⟩ h
    rw [hgx, hgy] at this
    exact absurd hxy this

theorem pos_lt_of_transGen {g : List (String × List String)} {st : DfsState}
    (inv : DfsInv g st) {x y : String}
    (h : Relation.TransGen (edge g) x y) (hx : x ∈ st.order) :
    y ∈ st.order ∧ st.order.indexOf y < st.order.indexOf x := by
  induction h with
  | single h1 => exact pos_lt_of_edge inv hx h1
  | tail _ h2 ih =>
    obtain ⟨hb, hlt⟩ := ih
    obtain ⟨hy, hlt2⟩ := pos_lt_of_edge inv hb h2
    exact ⟨hy, hlt2.trans hlt⟩

theorem transGen_key {g : List (String × List String)} {x y : String}
    (h : Relation.TransGen (edge g) x y) : x ∈ g.map Prod.fst := by
  induction h with
  | single h1 => exact key_mem_of_edge h1
  | tail _ _ ih => exact ih

theorem dependencyGraph_keys (subtasks : List SubtaskData)
    (dependencies : List (String × List String)) :
    (dependencyGraph subtasks dependencies).map Prod.fst =
      subtasks.map SubtaskData.id := by
  simp only [dependencyGraph, List.map_map]
  rfl

theorem lookupD_dependencyGraph (subtasks : List SubtaskData)
    (dependencies : List (String × List String)) (a : String) :
    lookupD (dependencyGraph subtasks dependencies) a = lookupD dependencies a ∨
      lookupD (dependencyGraph subtasks dependencies) a = [] := by
  induction subtasks with
  | nil => exact Or.inr rfl
  | cons s rest ih =>
    simp only [dependencyGraph, List.map_cons, lookupD]
    by_cases hsa : s.id = a
    · rw [if_pos hsa, hsa]
      exact Or.inl rfl
    · rw [if_neg hsa]
      exact ih

theorem edge_mono {subtasks : List SubtaskData}
    {dependencies : List (String × List String)} {a b : String}
    (h : edge (dependencyGraph subtasks dependencies) a b) :
    edge dependencies a b := by
  rcases lookupD_dependencyGraph subtasks dependencies a with heq | heq
  · rwa [edge, heq] at h
  · rw [edge, heq] at h
    simp at h

/-! ### Rebuilding the subtask list from the id order -/

theorem find_self : ∀ (l : List SubtaskData),
    (l.map SubtaskData.id).Nodup → ∀ s ∈ l,
      l.find? (fun t => t.id == s.id) = some s := by
  intro l
  induction l with
  | nil => intro _ s hs; simp at hs
  | cons h t ih =>
    intro hnd s hs
    rw [List.map_cons, List.nodup_cons] at hnd
    rcases List.mem_cons.mp hs with rfl | hs
    · simp [List.find?]
    · have hne : (h.id == s.id) = false := by
        have hmem : s.id ∈ t.map SubtaskData.id := List.mem_map_of_mem _ hs
        exact beq_eq_false_iff_ne.mpr (fun he => hnd.1 (he ▸ hmem))
      simp only [List.find?, hne]
      exact ih hnd.2 s hs

theorem find_none : ∀ (l : List SubtaskData) (sid : String),
    sid ∉ l.map SubtaskData.id → l.find? (fun t => t.id == sid) = none := by
  intro l
  induction l with
  | nil => intro sid _; rfl
  | cons h t ih =>
    intro sid hs
    simp only [List.map_cons, List.mem_cons, not_or] at hs
    have hne : (h.id == sid) = false :=
      beq_eq_false_iff_ne.mpr (fun he => hs.1 he.symm)
    simp only [List.find?, hne]
    exact ih sid hs.2

theorem filterMap_all_some {α : Type} : ∀ (l : List α) (f : α → Option α),
    (∀ x ∈ l, f x = some x) → l.filterMap f = l := by
  intro l
  induction l with
  | nil => intro f _; rfl
  | cons h t ih =>
    intro f hf
    rw [List.filterMap_cons, hf h (List.mem_cons_self h t),
      ih f (fun x hx => hf x (List.mem_cons_of_mem h hx))]

theorem filterMap_filter_none {α β : Type} (f : α → Option β) (p : α → Bool)
    (hfp : ∀ x, p x = false → f x = none) :
    ∀ l : List α, l.filterMap f = (l.filter p).filterMap f := by
  intro l
  induction l with
  | nil => rfl
  | cons h t ih =>
    cases hp : p h with
    | true => simp [List.filterMap_cons, List.filter_cons, hp, ih]
    | false => simp [List.filterMap_cons, hfp h hp, List.filter_cons, hp, ih]

/-- A finite rank certificate implies acyclicity of a dependency map. -/
theorem acyclic_of_rank {deps : List (String × List String)}
    (rank : String → Nat) (hr : ∀ a b, edge deps a b → rank b < rank a) :
    ∀ a, ¬ Relation.TransGen (edge deps) a a := by
  have key : ∀ x y, Relation.TransGen (edge deps) x y → rank y < rank x := by
    intro x y h
    induction h with
    | single h1 => exact hr _ _ h1
    | tail _ h2 ih => exact (hr _ _ h2).trans ih
  exact fun a h => lt_irrefl _ (key a a h)

/-! ### Claims C1, C3, C10 about the dependency resolver -/

/-- Claim C1 (code_bug evaluation): on subtasks `[A, B]` with dependency map
`B → [A]` (B depends on A), `_determine_execution_order` returns `[B, A]`,
placing `B` before the id `A` in its dependency set.  The spec requires every
id to appear after all ids it depends on, i.e. `[A, B]`.  The DFS postorder
`order` is already dependency-first; the final `list(reversed(...))` at
director.py line 371 flips it. -/
theorem execution_order_reversed_eval :
    determine_execution_order [subA, subB] [("B", ["A"])] = .ok [subB, subA] ∧
      edge (dependencyGraph [subA, subB] [("B", ["A"])]) "B" "A" := by
  constructor
  · rfl
  · show "A" ∈ lookupD (dependencyGraph [subA, subB] [("B", ["A"])]) "B"
    decide

/-- Claim C3 (counterexample): the dependency map
`\x7bA: [B], B: [A]\x7d` contains a cycle, yet with subtask list `[A]` (the
cycle runs through id `B`, which names no subtask) the resolver raises nothing
and returns the ordering `[A]` — contradicting "for any dependency map
containing a cycle, the resolver raises and never returns an ordering".
(The repository also defines no `CyclicDependencyError`; the error actually
raised on detected cycles is a `ValueError`.) -/
theorem cycle_outside_subtasks_not_detected :
    determine_execution_order [subA] [("A", ["B"]), ("B", ["A"])] =
        .ok [subA] ∧
      Relation.TransGen (edge [("A", ["B"]), ("B", ["A"])]) "A" "A" := by
  have h1 : edge [("A", ["B"]), ("B", ["A"])] "A" "B" := by
    show "B" ∈ lookupD [("A", ["B"]), ("B", ["A"])] "A"
    decide
  have h2 : edge [("A", ["B"]), ("B", ["A"])] "B" "A" := by
    show "A" ∈ lookupD [("A", ["B"]), ("B", ["A"])] "B"
    decide
  exact ⟨rfl, Relation.TransGen.head h1 (Relation.TransGen.single h2)⟩

/-- Claim C3 (amended): for any dependency map containing a cycle that lies
among the given subtask ids (a cycle of the built dependency graph), the
resolver raises a `ValueError` whose message names an id on a cycle, and never
returns an ordering. -/
theorem cycle_raises_valueError (subtasks : List SubtaskData)
    (dependencies : List (String × List String))
    (hcyc : ∃ a, Relation.TransGen
      (edge (dependencyGraph subtasks dependencies)) a a) :
    ∃ m, determine_execution_order subtasks dependencies =
        .error (.valueError (cycleMsg m)) ∧
      Relation.TransGen (edge (dependencyGraph subtasks dependencies)) m m := by
  obtain ⟨a, ha⟩ := hcyc
  have hids : ∀ s ∈ subtasks,
      s.id ∈ nodeUniverse (dependencyGraph subtasks dependencies) := by
    intro s hs
    exact List.mem_append_left _
      (by rw [dependencyGraph_keys]; exact List.mem_map_of_mem _ hs)
  have hfuel : (nodeUniverse (dependencyGraph subtasks dependencies)).length <
      dfsFuel (dependencyGraph subtasks dependencies) := by
    rw [universe_length, dfsFuel]
    omega
  simp only [determine_execution_order]
  cases hml : mainLoop (dependencyGraph subtasks dependencies)
      (dfsFuel (dependencyGraph subtasks dependencies)) subtasks
      ⟨[], [], []⟩ with
  | ok st =>
    exfalso
    obtain ⟨hinv, _, _, hall⟩ :=
      mainLoop_ok_spec subtasks _ st (dfsInv_init _) hml
    have hakey : a ∈ subtasks.map SubtaskData.id := by
      rw [← dependencyGraph_keys subtasks dependencies]
      exact transGen_key ha
    obtain ⟨s, hs, hsid⟩ := List.mem_map.mp hakey
    have haord : a ∈ st.order :=
      (hinv.memIff a).mp (hsid ▸ hall s hs)
    exact absurd (pos_lt_of_transGen hinv ha haord).2 (lt_irrefl _)
  | error e =>
    rcases mainLoop_error_spec subtasks _ e rfl hml with rfl | ⟨m, rfl, hm⟩
    · exact absurd hml (mainLoop_ne_fuelErr subtasks _ rfl hids hfuel)
    · exact ⟨m, rfl, hm⟩

/-- Witness for C3 (amended): subtasks `[A, B]` with map
`\x7bA: [B], B: [A]\x7d` form a cycle among the subtask ids, so the resolver
raises the cycle `ValueError`. -/
theorem cycle_raises_valueError_witness :
    ∃ m, determine_execution_order [subA, subB]
          [("A", ["B"]), ("B", ["A"])] =
        .error (.valueError (cycleMsg m)) ∧
      Relation.TransGen
        (edge (dependencyGraph [subA, subB] [("A", ["B"]), ("B", ["A"])])) m m := by
  have h1 : edge (dependencyGraph [subA, subB] [("A", ["B"]), ("B", ["A"])])
      "A" "B" := by
    show "B" ∈ lookupD (dependencyGraph [subA, subB]
      [("A", ["B"]), ("B", ["A"])]) "A"
    decide
  have h2 : edge (dependencyGraph [subA, subB] [("A", ["B"]), ("B", ["A"])])
      "B" "A" := by
    show "A" ∈ lookupD (dependencyGraph [subA, subB]
      [("A", ["B"]), ("B", ["A"])]) "B"
    decide
  exact cycle_raises_valueError [subA, subB] [("A", ["B"]), ("B", ["A"])]
    ⟨"A", Relation.TransGen.head h1 (Relation.TransGen.single h2)⟩

/-- Claim C10 (confirmed): for every acyclic dependency map and subtask list
with unique ids, `_determine_execution_order` returns a list that is a
permutation of the input subtask list (each input subtask exactly once;
dependency ids naming no input subtask are dropped, not invented). -/
theorem execution_order_is_permutation (subtasks : List SubtaskData)
    (dependencies : List (String × List String))
    (hnd : (subtasks.map SubtaskData.id).Nodup)
    (hacyc : ∀ a, ¬ Relation.TransGen (edge dependencies) a a) :
    ∃ l, determine_execution_order subtasks dependencies = .ok l ∧
      l.Perm subtasks := by
  have hgacyc : ∀ a, ¬ Relation.TransGen
      (edge (dependencyGraph subtasks dependencies)) a a :=
    fun a h => hacyc a
      (Relation.TransGen.mono (fun _ _ hxy => edge_mono hxy) h)
  have hids : ∀ s ∈ subtasks,
      s.id ∈ nodeUniverse (dependencyGraph subtasks dependencies) := by
    intro s hs
    exact List.mem_append_left _
      (by rw [dependencyGraph_keys]; exact List.mem_map_of_mem _ hs)
  have hfuel : (nodeUniverse (dependencyGraph subtasks dependencies)).length <
      dfsFuel (dependencyGraph subtasks dependencies) := by
    rw [universe_length, dfsFuel]
    omega
  simp only [determine_execution_order]
  cases hml : mainLoop (dependencyGraph subtasks dependencies)
      (dfsFuel (dependencyGraph subtasks dependencies)) subtasks
      ⟨[], [], []⟩ with
  | error e =>
    exfalso
    rcases mainLoop_error_spec subtasks _ e rfl hml with rfl | ⟨m, rfl, hm⟩
    · exact absurd hml (mainLoop_ne_fuelErr subtasks _ rfl hids hfuel)
    · exact hgacyc m hm
  | ok st =>
    obtain ⟨hinv, _, _, hall⟩ :=
      mainLoop_ok_spec subtasks _ st (dfsInv_init _) hml
    refine ⟨_, rfl, ?_⟩
    have hsubids : ∀ x ∈ subtasks.map SubtaskData.id, x ∈ st.order := by
      intro x hx
      obtain ⟨s, hs, rfl⟩ := List.mem_map.mp hx
      exact (hinv.memIff s.id).mp (hall s hs)
    have h1 : st.order.filterMap
          (fun sid => subtasks.find? (fun s => s.id == sid)) =
        (st.order.filter
            (fun sid => decide (sid ∈ subtasks.map SubtaskData.id))).filterMap
          (fun sid => subtasks.find? (fun s => s.id == sid)) := by
      refine filterMap_filter_none _ _ (fun x hx => find_none subtasks x ?_)
        st.order
      simpa using hx
    have h2 : (st.order.filter
          (fun sid => decide (sid ∈ subtasks.map SubtaskData.id))).Perm
        (subtasks.map SubtaskData.id) := by
      rw [List.perm_ext_iff_of_nodup (hinv.nodupOrder.filter _) hnd]
      intro x
      simp only [List.mem_filter, decide_eq_true_eq]
      exact ⟨fun h => h.2, fun h => ⟨hsubids x h, h⟩⟩
    have h3 : ((subtasks.map SubtaskData.id).filterMap
          (fun sid => subtasks.find? (fun s => s.id == sid))) = subtasks := by
      rw [List.filterMap_map]
      exact filterMap_all_some subtasks _ (fun s hs => find_self subtasks hnd s hs)
    refine List.Perm.trans (List.reverse_perm _) ?_
    rw [h1]
    exact (h2.filterMap _).trans (by rw [h3])

/-- Witness for C10: subtasks `[A, B]` with the acyclic map `B → [A]`
(acyclicity certified by the rank function `B ↦ 1, _ ↦ 0`). -/
theorem execution_order_is_permutation_witness :
    ∃ l, determine_execution_order [subA, subB] [("B", ["A"])] = .ok l ∧
      l.Perm [subA, subB] :=
  execution_order_is_permutation [subA, subB] [("B", ["A"])] (by decide)
    (acyclic_of_rank (fun s => if s = "B" then 1 else 0) (fun a b h => by
      simp only [edge, lookupD] at h
      by_cases hB : "B" = a
      · rw [if_pos hB] at h
        rcases List.mem_singleton.mp h with rfl
        rw [← hB]
        decide
      · rw [if_neg hB] at h
        exact absurd h (List.not_mem_nil b)))

/-- Claim C2 (counterexample): calling `update_status` with `PENDING` on a
COMPLETED `Task`, `SubTask` and `TaskModel` silently overwrites the terminal
status — the claim that terminal statuses are rejected or no-oped is false. -/
theorem terminal_status_overwritten :
    (demoTaskDone.update_status TaskStatus.pending 6).status =
        TaskStatus.pending ∧
      (demoSubDone.update_status SubtaskStatus.pending 6).status =
        SubtaskStatus.pending ∧
      (demoModelDone.update_status TaskStatus.pending 6).status =
        TaskStatus.pending := by
  exact ⟨rfl, rfl, rfl⟩

/-- Claim C2 (amended): `update_status` on `Task`, `SubTask` and `TaskModel`
unconditionally overwrites the stored status with its argument; terminal
statuses (COMPLETED/FAILED/CANCELLED) receive no protection, so a subsequent
call changes them like any other. -/
theorem update_status_overwrites (t : Task) (s : SubTask) (m : TaskModel)
    (ts : TaskStatus) (ss : SubtaskStatus) (now : Nat) :
    (t.update_status ts now).status = ts ∧
      (s.update_status ss now).status = ss ∧
      (m.update_status ts now).status = ts :=
  ⟨rfl, rfl, rfl⟩

/-- Claim C6 (counterexample): updating a fresh `Task` to COMPLETED and then
to FAILED leaves `completed_at` set while the status is not COMPLETED, so
"`completed_at` is non-null iff `status == COMPLETED`" is false. -/
theorem completed_at_not_cleared :
    ((freshTask 0).apply_updates
        [(TaskStatus.completed, 1), (TaskStatus.failed, 2)]).completed_at =
        some 1 ∧
      ((freshTask 0).apply_updates
        [(TaskStatus.completed, 1), (TaskStatus.failed, 2)]).status =
        TaskStatus.failed :=
  ⟨rfl, rfl⟩

theorem task_apply_updates_completed_at (t : Task) :
    ∀ updates : List (TaskStatus × Nat),
      (t.apply_updates updates).completed_at ≠ none ↔
        (t.completed_at ≠ none ∨
          TaskStatus.completed ∈ updates.map Prod.fst) := by
  intro updates
  induction updates generalizing t with
  | nil => simp [Task.apply_updates]
  | cons p rest ih =>
    obtain ⟨s, n⟩ := p
    have hstep : t.apply_updates ((s, n) :: rest) =
        (t.update_status s n).apply_updates rest := rfl
    rw [hstep, ih]
    by_cases hs : s = TaskStatus.completed
    · subst hs
      simp [Task.update_status]
    · simp only [Task.update_status, if_neg hs, List.map_cons, List.mem_cons]
      constructor
      · rintro (h | h)
        · exact Or.inl h
        · exact Or.inr (Or.inr h)
      · rintro (h | h | h)
        · exact Or.inl h
        · exact absurd h.symm hs
        · exact Or.inr h

theorem model_apply_updates_completed_at (t : TaskModel) :
    ∀ updates : List (TaskStatus × Nat),
      (t.apply_updates updates).completed_at ≠ none ↔
        (t.completed_at ≠ none ∨
          TaskStatus.completed ∈ updates.map Prod.fst) := by
  intro updates
  induction updates generalizing t with
  | nil => simp [TaskModel.apply_updates]
  | cons p rest ih =>
    obtain ⟨s, n⟩ := p
    have hstep : t.apply_updates ((s, n) :: rest) =
        (t.update_status s n).apply_updates rest := rfl
    rw [hstep, ih]
    by_cases hs : s = TaskStatus.completed
    · subst hs
      simp [TaskModel.update_status]
    · simp only [TaskModel.update_status, if_neg hs, List.map_cons,
        List.mem_cons]
      constructor
      · rintro (h | h)
        · exact Or.inl h
        · exact Or.inr (Or.inr h)
      · rintro (h | h | h)
        · exact Or.inl h
        · exact absurd h.symm hs
        · exact Or.inr h

/-- Claim C6 (amended): after any sequence of `update_status` calls on a
`Task` or `TaskModel` whose `completed_at` starts as `None`, `completed_at`
is non-null iff some call in the sequence had status COMPLETED — it is set on
the first COMPLETED update and never cleared, so it can stay set while the
status is no longer COMPLETED. -/
theorem completed_at_iff_some_completed_update (t : Task) (m : TaskModel)
    (updates : List (TaskStatus × Nat))
    (ht : t.completed_at = none) (hm : m.completed_at = none) :
    ((t.apply_updates updates).completed_at ≠ none ↔
        TaskStatus.completed ∈ updates.map Prod.fst) ∧
      ((m.apply_updates updates).completed_at ≠ none ↔
        TaskStatus.completed ∈ updates.map Prod.fst) := by
  constructor
  · rw [task_apply_updates_completed_at t updates, ht]
    simp
  · rw [model_apply_updates_completed_at m updates, hm]
    simp

/-- Witness for the amended C6 theorem at a concrete task and update list. -/
theorem completed_at_iff_some_completed_update_witness :
    (((freshTask 0).apply_updates
          [(TaskStatus.completed, 1), (TaskStatus.failed, 2)]).completed_at ≠
        none ↔
      TaskStatus.completed ∈
        ([(TaskStatus.completed, 1), (TaskStatus.failed, 2)].map Prod.fst)) ∧
      ((demoFreshModel.apply_updates
          [(TaskStatus.completed, 1), (TaskStatus.failed, 2)]).completed_at ≠
        none ↔
      TaskStatus.completed ∈
        ([(TaskStatus.completed, 1), (TaskStatus.failed, 2)].map Prod.fst)) :=
  completed_at_iff_some_completed_update (freshTask 0) demoFreshModel
    [(TaskStatus.completed, 1), (TaskStatus.failed, 2)] rfl rfl

/-- Claim C4 (counterexample): a non-transient error on the first attempt
does not fail the query: `run_query` makes a second backend attempt (two
attempts, no backoff sleep) and even returns its success — contradicting
"fails immediately without making any further backend attempt". -/
theorem non_transient_error_is_retried :
    run_query nonTransientThenOk = ⟨"recovered", 2, []⟩ ∧
      isTransientErr "malformed output" = false := by
  exact ⟨by decide, by decide⟩

/-- Claim C4 (amended): a backend error not classified as transient fails the
query only when it occurs on the final (`max_retries`-th) attempt, where the
failure message carrying the error is returned; on any earlier attempt the
loop falls through and immediately makes a further backend attempt, with no
backoff sleep and an unchanged delay. -/
theorem run_query_nonTransient_behaviour (f : Nat → Except String String)
    (e : String) (he : isTransientErr e = false) :
    (∀ (r attempt delay : Nat) (ds : List Nat), f attempt = .error e →
      attempt + 1 < maxRetries →
      run_query_loop f (r + 1) attempt delay ds =
        run_query_loop f r (attempt + 1) delay ds) ∧
      (∀ (r delay : Nat) (ds : List Nat), f (maxRetries - 1) = .error e →
        run_query_loop f (r + 1) (maxRetries - 1) delay ds =
          ⟨errorReturnMsg e, maxRetries, ds⟩) := by
  constructor
  · intro r attempt delay ds hf hlt
    simp only [maxRetries] at hlt
    simp only [run_query_loop, hf, maxRetries]
    rw [if_neg (fun hc => Bool.false_ne_true (he ▸ hc.1))]
    rw [if_neg (by omega)]
  · intro r delay ds hf
    have h21 : maxRetries - 1 = 2 := rfl
    rw [h21] at hf
    rw [h21]
    simp only [run_query_loop, hf]
    rw [if_neg (fun hc => Bool.false_ne_true (he ▸ hc.1))]
    rw [if_pos (by decide)]
    rfl

/-- Witness for the amended C4 theorem: the always-failing non-transient
backend steps from attempt 0 to attempt 1 with no sleep, and fails with the
error message on the final attempt. -/
theorem run_query_nonTransient_behaviour_witness :
    run_query_loop alwaysInvalid 3 0 2 [] =
        run_query_loop alwaysInvalid 2 1 2 [] ∧
      run_query_loop alwaysInvalid 1 2 2 [] =
        ⟨errorReturnMsg "invalid request", 3, []⟩ := by
  have h := run_query_nonTransient_behaviour alwaysInvalid "invalid request"
    (by decide)
  exact ⟨h.1 2 0 2 [] rfl (by decide), h.2 0 2 [] rfl⟩

/-- Claim C5 (confirmed): if the backend raises a transient error on every
attempt, `run_query` makes exactly `max_retries = 3` attempts, sleeps the
doubling schedule 2s then 4s between them, and returns the failure message
carrying the last attempt's error. -/
theorem run_query_transient_exhausts (f : Nat → Except String String)
    (e0 e1 e2 : String)
    (h0 : f 0 = .error e0) (h1 : f 1 = .error e1) (h2 : f 2 = .error e2)
    (t0 : isTransientErr e0 = true) (t1 : isTransientErr e1 = true)
    (_t2 : isTransientErr e2 = true) :
    run_query f = ⟨errorReturnMsg e2, maxRetries, [2, 4]⟩ := by
  show run_query_loop f 3 0 2 [] = ⟨errorReturnMsg e2, 3, [2, 4]⟩
  simp only [run_query_loop, h0]
  rw [if_pos ⟨t0, by decide⟩]
  show run_query_loop f 2 1 4 [2] = ⟨errorReturnMsg e2, 3, [2, 4]⟩
  simp only [run_query_loop, h1]
  rw [if_pos ⟨t1, by decide⟩]
  show run_query_loop f 1 2 8 [2, 4] = ⟨errorReturnMsg e2, 3, [2, 4]⟩
  simp only [run_query_loop, h2]
  rw [if_neg (fun hc => absurd hc.2 (by decide)), if_pos (by decide)]

/-- Witness for C5 at the always-timing-out backend. -/
theorem run_query_transient_exhausts_witness :
    run_query alwaysTimeout = ⟨errorReturnMsg "Request timed out", maxRetries, [2, 4]⟩ :=
  run_query_transient_exhausts alwaysTimeout _ _ _ rfl rfl rfl (by decide)
    (by decide) (by decide)

/-- Claim C7 (confirmed): `execute_command` always returns a result dict —
never an exception.  An unknown command name yields the failure dict with the
unknown-command error; a handler that raises during construction or during
execution yields a failure dict with an error entry; only a handler that
returns normally has its own dict passed through. -/
theorem dispatcher_failure_contract (m : List (String × CommandSpec))
    (ct : String) :
    (lookupCmd m ct = none →
      execute_command m ct = ⟨"failure", some (unknownCommandMsg ct), none⟩) ∧
      (∀ spec exc, lookupCmd m ct = some spec → spec.construct = .error exc →
        (execute_command m ct).status = "failure" ∧
          (execute_command m ct).error.isSome = true) ∧
      (∀ spec inst exc, lookupCmd m ct = some spec →
        spec.construct = .ok inst → inst.execute = .error exc →
        (execute_command m ct).status = "failure" ∧
          (execute_command m ct).error.isSome = true) ∧
      (∀ spec inst res, lookupCmd m ct = some spec →
        spec.construct = .ok inst → inst.execute = .ok res →
        execute_command m ct = res) := by
  refine ⟨?_, ?_, ?_, ?_⟩
  · intro h
    simp [execute_command, h]
  · intro spec exc h hc
    cases exc with
    | typeError s => simp [execute_command, h, hc]
    | exc s => simp [execute_command, h, hc]
  · intro spec inst exc h hc he
    cases exc with
    | typeError s => simp [execute_command, h, hc, he]
    | exc s => simp [execute_command, h, hc, he]
  · intro spec inst res h hc he
    simp [execute_command, h, hc, he]

/-- Witness for C7 on a three-command registry: unknown name, raising
constructor, raising `execute`, and the pass-through case. -/
theorem dispatcher_failure_contract_witness :
    (execute_command [("plan_task", okSpec)] "no_such" =
        ⟨"failure", some (unknownCommandMsg "no_such"), none⟩) ∧
      ((execute_command [("plan_task", brokenConstructSpec)] "plan_task").status
          = "failure" ∧
        (execute_command [("plan_task", brokenConstructSpec)]
            "plan_task").error.isSome = true) ∧
      ((execute_command [("execute_task", brokenExecuteSpec)]
            "execute_task").status = "failure" ∧
        (execute_command [("execute_task", brokenExecuteSpec)]
            "execute_task").error.isSome = true) ∧
      execute_command [("plan_task", okSpec)] "plan_task" =
        ⟨"success", none, some "plan"⟩ := by
  refine ⟨?_, ?_, ?_, ?_⟩
  · exact (dispatcher_failure_contract [("plan_task", okSpec)] "no_such").1 rfl
  · exact (dispatcher_failure_contract [("plan_task", brokenConstructSpec)]
      "plan_task").2.1 brokenConstructSpec (.exc "planner missing") rfl rfl
  · exact (dispatcher_failure_contract [("execute_task", brokenExecuteSpec)]
      "execute_task").2.2.1 brokenExecuteSpec ⟨.error (.exc "boom")⟩
      (.exc "boom") rfl rfl rfl
  · exact (dispatcher_failure_contract [("plan_task", okSpec)]
      "plan_task").2.2.2 okSpec ⟨.ok ⟨"success", none, some "plan"⟩⟩
      ⟨"success", none, some "plan"⟩ rfl rfl rfl

/-- Claim C8 (confirmed): when plan validation fails the Director substitutes
the fallback plan: exactly one subtask, whose description equals the whole
Task's description, with an empty dependency map — the Task is not aborted. -/
theorem fallback_plan_on_validation_failure (task : TaskModel) (planned : Plan) :
    choose_plan task planned false = create_fallback_plan task ∧
      (create_fallback_plan task).subtasks =
        [⟨task.id ++ "-sub1", task.title ++ " (単一ステップ)",
          task.description, task.requirements⟩] ∧
      (create_fallback_plan task).dependencies = [] :=
  ⟨rfl, rfl, rfl⟩

/-- Claim C9 (confirmed): `execute_task` always returns a
`TaskExecutionResult` (it is total — no exception escapes): COMPLETED with
the generated content when every internal step succeeds, FAILED with the
error in the payload when any internal step raises. -/
theorem worker_execute_task_total (task : SubTask)
    (c h : Except String Unit) (gen : Except String String)
    (reqs : List String) (t0 t1 : Nat) :
    ((execute_task task c h gen reqs t0 t1).2.status = TaskStatus.completed ∨
      (execute_task task c h gen reqs t0 t1).2.status = TaskStatus.failed) ∧
      (∀ content, c = .ok () → h = .ok () → gen = .ok content →
        execute_task task c h gen reqs t0 t1 =
          ("completed", ⟨task.id, TaskStatus.completed, some content, reqs,
            none, t1 - t0⟩)) ∧
      (∀ e, c = .error e →
        execute_task task c h gen reqs t0 t1 =
          ("failed", ⟨task.id, TaskStatus.failed, none, [],
            some (taskErrMsg e), t1 - t0⟩)) ∧
      (∀ e, c = .ok () → h = .error e →
        execute_task task c h gen reqs t0 t1 =
          ("failed", ⟨task.id, TaskStatus.failed, none, [],
            some (taskErrMsg e), t1 - t0⟩)) ∧
      (∀ e, c = .ok () → h = .ok () → gen = .error e →
        execute_task task c h gen reqs t0 t1 =
          ("failed", ⟨task.id, TaskStatus.failed, none, [],
            some (taskErrMsg e), t1 - t0⟩)) := by
  refine ⟨?_, ?_, ?_, ?_, ?_⟩
  · cases c with
    | error e => exact Or.inr rfl
    | ok u =>
      cases h with
      | error e => exact Or.inr rfl
      | ok u' =>
        cases gen with
        | error e => exact Or.inr rfl
        | ok content => exact Or.inl rfl
  · intro content hc hh hg
    rw [hc, hh, hg]
    rfl
  · intro e hc
    rw [hc]
    rfl
  · intro e hc hh
    rw [hc, hh]
    rfl
  · intro e hc hh hg
    rw [hc, hh, hg]
    rfl

/-- Witness for C9: the success case and the generation-failure case at a
concrete subtask. -/
theorem worker_execute_task_total_witness :
    execute_task demoWorkSub (.ok ()) (.ok ()) (.ok "Once upon a time")
        ["three paragraphs"] 3 10 =
      ("completed", ⟨"s1", TaskStatus.completed, some "Once upon a time",
        ["three paragraphs"], none, 7⟩) ∧
      execute_task demoWorkSub (.ok ()) (.ok ()) (.error "model crashed")
          [] 3 10 =
        ("failed", ⟨"s1", TaskStatus.failed, none, [],
          some (taskErrMsg "model crashed"), 7⟩) := by
  constructor
  · exact ((worker_execute_task_total demoWorkSub (.ok ()) (.ok ())
      (.ok "Once upon a time") ["three paragraphs"] 3 10).2.1
      "Once upon a time" rfl rfl rfl).trans (by rfl)
  · exact ((worker_execute_task_total demoWorkSub (.ok ()) (.ok ())
      (.error "model crashed") [] 3 10).2.2.2.2
      "model crashed" rfl rfl rfl).trans (by rfl)

end Orchestration
